import Mathlib

set_option maxRecDepth 100000

/-!
Verification development for the candy-learn-pinyin audio pipeline:
the client-side resolve/cache/dedup path (`services/geminiService.ts` and its
revision variants) and the server-side cache-or-fetch endpoint
(`api/tts.ts`, Postgres variant and Vercel-Blob variant).

Bytes are modelled as `Nat` values below 256, payloads as `List Nat`,
stores as association lists, and the client's concurrent behaviour as a
small-step transition system over an explicit state.
-/

namespace CandyPinyin

/-! ## Base64 codec

Server side: `Buffer.from(arrayBuffer).toString('base64')` produces standard
padded base64. Client side: `decodeBase64` / `base64ToArrayBuffer` strip all
`\s` characters and call `atob`, reading the resulting binary string byte by
byte. `atob` implements WHATWG forgiving-base64 (strip ASCII whitespace,
strip up to two trailing padding chars when the length is a multiple of 4,
fail on a remaining length of 1 mod 4 or on characters outside the alphabet;
leftover bits are discarded, not checked). -/

/-- The standard base64 alphabet shared by `Buffer.toString` and `atob`. -/
def b64Alphabet : List Char :=
  "ABCDEFGHIJKLMNOPQRSTUVWXYZabcdefghijklmnopqrstuvwxyz0123456789+/".toList

/-- Character for a 6-bit group. -/
def b64Char (n : Nat) : Char := b64Alphabet.getD n 'A'

/-- Index of a character in the base64 alphabet, `none` if absent. -/
def b64Idx (c : Char) : Option Nat :=
  if c ∈ b64Alphabet then some (b64Alphabet.indexOf c) else none

/-- Standard padded base64 of a byte list, as produced by
`Buffer.from(bytes).toString('base64')`. -/
def b64encodeList : List Nat → List Char
  | [] => []
  | [b0] => [b64Char (b0 / 4), b64Char (b0 % 4 * 16), '=', '=']
  | [b0, b1] =>
    [b64Char (b0 / 4), b64Char (b0 % 4 * 16 + b1 / 16), b64Char (b1 % 16 * 4), '=']
  | b0 :: b1 :: b2 :: rest =>
    b64Char (b0 / 4) :: b64Char (b0 % 4 * 16 + b1 / 16) ::
    b64Char (b1 % 16 * 4 + b2 / 64) :: b64Char (b2 % 64) :: b64encodeList rest

/-- Server-side base64 encoding as a string. -/
def b64encode (bs : List Nat) : String := String.mk (b64encodeList bs)

/-- Decode a final quantum of two characters (one output byte); leftover bits
are discarded per forgiving-base64. -/
def dec2 (c0 c1 : Char) : Option (List Nat) := do
  let i0 ← b64Idx c0
  let i1 ← b64Idx c1
  some [i0 * 4 + i1 / 16]

/-- Decode a final quantum of three characters (two output bytes). -/
def dec3 (c0 c1 c2 : Char) : Option (List Nat) := do
  let i0 ← b64Idx c0
  let i1 ← b64Idx c1
  let i2 ← b64Idx c2
  some [i0 * 4 + i1 / 16, i1 % 16 * 16 + i2 / 4]

/-- Decode a full quantum of four characters (three output bytes). -/
def dec4 (c0 c1 c2 c3 : Char) : Option (List Nat) := do
  let i0 ← b64Idx c0
  let i1 ← b64Idx c1
  let i2 ← b64Idx c2
  let i3 ← b64Idx c3
  some [i0 * 4 + i1 / 16, i1 % 16 * 16 + i2 / 4, i2 % 4 * 64 + i3]

/-- Forgiving-base64 chunk decoding after whitespace removal: trailing `=`
padding is honoured only in a final quantum of four, a remaining length of
1 mod 4 fails, and any non-alphabet character fails via `b64Idx`. -/
def b64decodeChunks : List Char → Option (List Nat)
  | [] => some []
  | [_] => none
  | [c0, c1] => dec2 c0 c1
  | [c0, c1, c2] => dec3 c0 c1 c2
  | c0 :: c1 :: c2 :: c3 :: rest =>
    match rest with
    | [] =>
      if c3 = '=' then
        if c2 = '=' then dec2 c0 c1 else dec3 c0 c1 c2
      else dec4 c0 c1 c2 c3
    | _ :: _ => do
      let b3 ← dec4 c0 c1 c2 c3
      let bs ← b64decodeChunks rest
      some (b3 ++ bs)

/-- ASCII whitespace removed by forgiving-base64 (`atob`). -/
def isAsciiWs (c : Char) : Bool :=
  c = '\t' || c = '\n' || c = '\x0c' || c = '\r' || c = ' '

/-- Model of `atob` returning the char codes of the binary string as bytes. -/
def atobBytes (s : String) : Option (List Nat) :=
  b64decodeChunks (s.data.filter (fun c => !(isAsciiWs c)))

/-- Character class of the JavaScript regex `\s` used by the client's
`base64.replace(/\s/g, '')`. -/
def isJsWs (c : Char) : Bool :=
  isAsciiWs c || c = '\x0b' ||
  c.toNat = 0xA0 || c.toNat = 0x1680 ||
  (0x2000 <= c.toNat && c.toNat <= 0x200A) ||
  c.toNat = 0x2028 || c.toNat = 0x2029 || c.toNat = 0x202F ||
  c.toNat = 0x205F || c.toNat = 0x3000 || c.toNat = 0xFEFF

/-- Result of `s.replace(/\s/g, '')`. -/
def stripJsWs (s : String) : String :=
  String.mk (s.data.filter (fun c => !(isJsWs c)))

/-- Client-side `decodeBase64` / `base64ToArrayBuffer`
(`services/geminiService.ts` lines 32-41): strip `\s`, `atob`, read bytes. -/
def decodeBase64 (s : String) : Option (List Nat) :=
  atobBytes (stripJsWs s)

theorem b64Alphabet_length : b64Alphabet.length = 64 := by decide

theorem b64Idx_b64Char (n : Nat) (h : n < 64) : b64Idx (b64Char n) = some n := by
  revert n h
  decide

theorem b64Char_mem (n : Nat) : b64Char n ∈ b64Alphabet := by
  unfold b64Char
  rcases Nat.lt_or_ge n b64Alphabet.length with h | h
  · rw [List.getD_eq_getElem _ _ h]
    exact List.getElem_mem h
  · rw [List.getD_eq_default _ _ h]
    decide

theorem b64Char_not_asciiWs (n : Nat) : isAsciiWs (b64Char n) = false := by
  have h : ∀ c ∈ b64Alphabet, isAsciiWs c = false := by decide
  exact h _ (b64Char_mem n)

theorem b64Char_not_jsWs (n : Nat) : isJsWs (b64Char n) = false := by
  have h : ∀ c ∈ b64Alphabet, isJsWs c = false := by decide
  exact h _ (b64Char_mem n)

theorem b64Char_ne_pad (n : Nat) : b64Char n ≠ '=' := by
  have h : ∀ c ∈ b64Alphabet, c ≠ '=' := by decide
  exact h _ (b64Char_mem n)

theorem b64encodeList_ne_nil (bs : List Nat) (h : bs ≠ []) : b64encodeList bs ≠ [] := by
  match bs with
  | [] => exact absurd rfl h
  | [b0] => simp [b64encodeList]
  | [b0, b1] => simp [b64encodeList]
  | b0 :: b1 :: b2 :: rest => simp [b64encodeList]

theorem b64decodeChunks_encode (bs : List Nat) (h : ∀ b ∈ bs, b < 256) :
    b64decodeChunks (b64encodeList bs) = some bs := by
  induction bs using b64encodeList.induct with
  | case1 => rfl
  | case2 b0 =>
    have h0 : b0 < 256 := h b0 (by simp)
    have e0 : b64Idx (b64Char (b0 / 4)) = some (b0 / 4) :=
      b64Idx_b64Char _ (by omega)
    have e1 : b64Idx (b64Char (b0 % 4 * 16)) = some (b0 % 4 * 16) :=
      b64Idx_b64Char _ (by omega)
    simp [b64encodeList, b64decodeChunks, dec2, e0, e1]
    omega
  | case3 b0 b1 =>
    have h0 : b0 < 256 := h b0 (by simp)
    have h1 : b1 < 256 := h b1 (by simp)
    have e0 : b64Idx (b64Char (b0 / 4)) = some (b0 / 4) :=
      b64Idx_b64Char _ (by omega)
    have e1 : b64Idx (b64Char (b0 % 4 * 16 + b1 / 16)) = some (b0 % 4 * 16 + b1 / 16) :=
      b64Idx_b64Char _ (by omega)
    have e2 : b64Idx (b64Char (b1 % 16 * 4)) = some (b1 % 16 * 4) :=
      b64Idx_b64Char _ (by omega)
    simp [b64encodeList, b64decodeChunks, b64Char_ne_pad, dec3, e0, e1, e2]
    constructor
    · omega
    · omega
  | case4 b0 b1 b2 rest ih =>
    have h0 : b0 < 256 := h b0 (by simp)
    have h1 : b1 < 256 := h b1 (by simp)
    have h2 : b2 < 256 := h b2 (by simp)
    have e0 : b64Idx (b64Char (b0 / 4)) = some (b0 / 4) :=
      b64Idx_b64Char _ (by omega)
    have e1 : b64Idx (b64Char (b0 % 4 * 16 + b1 / 16)) = some (b0 % 4 * 16 + b1 / 16) :=
      b64Idx_b64Char _ (by omega)
    have e2 : b64Idx (b64Char (b1 % 16 * 4 + b2 / 64)) = some (b1 % 16 * 4 + b2 / 64) :=
      b64Idx_b64Char _ (by omega)
    have e3 : b64Idx (b64Char (b2 % 64)) = some (b2 % 64) :=
      b64Idx_b64Char _ (by omega)
    have ih' := ih (fun b hb => h b (by simp [hb]))
    rcases hrest : b64encodeList rest with _ | ⟨c, cs⟩
    · have : rest = [] := by
        by_contra hne
        exact b64encodeList_ne_nil rest hne hrest
      subst this
      simp [b64encodeList, b64decodeChunks, b64Char_ne_pad, dec4, e0, e1, e2, e3]
      refine ⟨by omega, by omega, by omega⟩
    · rw [hrest] at ih'
      simp [b64encodeList, b64decodeChunks, hrest, dec4, e0, e1, e2, e3, ih']
      refine ⟨by omega, by omega, by omega⟩

theorem encodeList_not_ws (bs : List Nat) :
    ∀ c ∈ b64encodeList bs, isAsciiWs c = false := by
  induction bs using b64encodeList.induct with
  | case1 => simp [b64encodeList]
  | case2 b0 =>
    simp [b64encodeList, b64Char_not_asciiWs]
    decide
  | case3 b0 b1 =>
    simp [b64encodeList, b64Char_not_asciiWs]
    decide
  | case4 b0 b1 b2 rest ih =>
    intro c hc
    simp [b64encodeList] at hc
    rcases hc with rfl | rfl | rfl | rfl | hc
    · exact b64Char_not_asciiWs _
    · exact b64Char_not_asciiWs _
    · exact b64Char_not_asciiWs _
    · exact b64Char_not_asciiWs _
    · exact ih c hc

theorem atobBytes_encode (bs : List Nat) (h : ∀ b ∈ bs, b < 256) :
    atobBytes (b64encode bs) = some bs := by
  unfold atobBytes b64encode
  have hf : (b64encodeList bs).filter (fun c => !(isAsciiWs c)) = b64encodeList bs := by
    apply List.filter_eq_self.mpr
    intro c hc
    simp [encodeList_not_ws bs c hc]
  simpa [hf] using b64decodeChunks_encode bs h

/-! ## Server model (`api/tts.ts`)

The file holds two revisions of the endpoint: a Postgres-cache variant
(normalizes `ü` to `v` before cache lookup and persist) and a Vercel-Blob
variant (looks up and persists under the original key; normalizes only the
upstream download URL). Both are modelled, parameterized by an upstream
fetch oracle and an explicit store. The store is modelled as a total
key-value map (the Postgres lazy table-creation branch and blob transport
errors are failure handling of the hosting platform, not of the algorithm). -/

/-- Response of the external MP3 source as seen through `fetch`. -/
structure UpstreamResp where
  status : Nat
  contentType : Option String
  body : List Nat

/-- The `Response.ok` flag of the Fetch API: status in 200..299. -/
def UpstreamResp.respOk (r : UpstreamResp) : Bool :=
  decide (200 ≤ r.status) && decide (r.status ≤ 299)

/-- JavaScript `hay.includes(needle)` on strings, auxiliary scan. -/
def strIncludesAux (needle : List Char) : List Char → Bool
  | [] => needle.isEmpty
  | c :: cs => needle.isPrefixOf (c :: cs) || strIncludesAux needle cs

/-- JavaScript `hay.includes(needle)`. -/
def strIncludes (hay needle : String) : Bool :=
  strIncludesAux needle.data hay.data

/-- Key normalization `text.replace(/ü/g, 'v')`. -/
def normalizeU (s : String) : String :=
  String.mk (s.data.map (fun c => if c = 'ü' then 'v' else c))

/-- URL of the external audio source for a (normalized) syllable. -/
def pinyinUrl (char : String) : String :=
  "http://du.hanyupinyin.cn/du/pinyin/" ++ char ++ ".mp3"

/-- Incoming request: HTTP method and the optional `text` field of the JSON
body (`none` when the field is absent; the empty string is also rejected by
the code's `if (!text)` truthiness test). -/
structure ApiRequest where
  method : String
  text : Option String

/-- Outgoing response: status plus the `error` or `audioData` field of the
JSON body (the 405 branch sends plain text, recorded in `error` too). -/
structure ApiResult where
  status : Nat
  error : Option String
  audioData : Option String

/-- Observable side effects of one request: number of upstream `fetch`
calls, of cache lookups, and of cache writes. -/
structure Effects where
  upstreamCalls : Nat
  cacheReads : Nat
  cacheWrites : Nat

/-- Association-list lookup keyed on decidable equality; models both the
JavaScript `Map` and the abstract durable stores. -/
def alookup {α β : Type} [DecidableEq α] (k : α) : List (α × β) → Option β
  | [] => none
  | p :: ps => if p.1 = k then some p.2 else alookup k ps

/-- SQL `INSERT ... ON CONFLICT (text) DO NOTHING`. -/
def insertIfAbsent (store : List (String × String)) (k v : String) :
    List (String × String) :=
  match alookup k store with
  | some _ => store
  | none => store ++ [(k, v)]

/-- Result of one Postgres-variant request: response, new store, effects. -/
structure PGOut where
  res : ApiResult
  store : List (String × String)
  eff : Effects

/-- Postgres-cache revision of the endpoint (`api/tts.ts` lines 4-95):
validate, normalize `ü`->`v`, look up `tts_cache` by the normalized key,
on miss fetch the external source (retrying once with tone `1` appended on
a 404), validate content type and size, insert-if-absent under the
normalized key, respond with base64 audio. -/
def handlerPG (upstream : String → UpstreamResp) (store : List (String × String))
    (req : ApiRequest) : PGOut :=
  if req.method ≠ "POST" then
    ⟨⟨405, some "Method Not Allowed", none⟩, store, ⟨0, 0, 0⟩⟩
  else
    match req.text with
    | none => ⟨⟨400, some "Text is required", none⟩, store, ⟨0, 0, 0⟩⟩
    | some t0 =>
      if t0 = "" then ⟨⟨400, some "Text is required", none⟩, store, ⟨0, 0, 0⟩⟩
      else
        let t := normalizeU t0
        match alookup t store with
        | some cached => ⟨⟨200, none, some cached⟩, store, ⟨0, 1, 0⟩⟩
        | none =>
          let r1 := upstream (pinyinUrl t)
          let fb := r1.status = 404
          let r := if fb then upstream (pinyinUrl (t ++ "1")) else r1
          let calls := if fb then 2 else 1
          if !r.respOk then
            ⟨⟨404, some ("Audio source not found (Status: " ++ toString r.status ++ ")"), none⟩,
             store, ⟨calls, 1, 0⟩⟩
          else if (match r.contentType with
                   | some ct => strIncludes ct "text/html"
                   | none => false) then
            ⟨⟨404, some "Audio source returned HTML instead of Audio", none⟩,
             store, ⟨calls, 1, 0⟩⟩
          else if r.body.length < 100 then
            ⟨⟨500, some "Audio file invalid or empty", none⟩, store, ⟨calls, 1, 0⟩⟩
          else
            let b64 := b64encode r.body
            ⟨⟨200, none, some b64⟩, insertIfAbsent store t b64, ⟨calls, 1, 1⟩⟩

/-- UTF-8 encoding of a code point, used by `encodeURIComponent`. -/
def utf8Bytes (n : Nat) : List Nat :=
  if n < 0x80 then [n]
  else if n < 0x800 then [0xC0 + n / 64, 0x80 + n % 64]
  else if n < 0x10000 then [0xE0 + n / 4096, 0x80 + n / 64 % 64, 0x80 + n % 64]
  else [0xF0 + n / 262144, 0x80 + n / 4096 % 64, 0x80 + n / 64 % 64, 0x80 + n % 64]

/-- Uppercase hex digit. -/
def hexDigit (n : Nat) : Char := "0123456789ABCDEF".toList.getD n '0'

/-- Characters `encodeURIComponent` leaves unescaped (0x27 is the single
quote). -/
def uriUnreserved (c : Char) : Bool :=
  c.isAlpha || c.isDigit || c = '-' || c = '_' || c = '.' || c = '!' ||
  c = '~' || c = '*' || c.toNat = 0x27 || c = '(' || c = ')'

/-- Percent-encoding of one byte. -/
def pctEncode (b : Nat) : List Char := ['%', hexDigit (b / 16), hexDigit (b % 16)]

/-- JavaScript `encodeURIComponent`. -/
def encodeURIComponent (s : String) : String :=
  String.mk (s.data.flatMap (fun c =>
    if uriUnreserved c then [c] else (utf8Bytes c.toNat).flatMap pctEncode))

/-- Blob pathname used by the Vercel-Blob revision for a cache entry. -/
def blobFilename (text : String) : String :=
  "audio/" ++ encodeURIComponent text ++ ".mp3"

/-- Node `Buffer.from(s, 'base64')`; on the canonical padded encodings this
code feeds it (outputs of `Buffer.toString('base64')`), it agrees with the
forgiving-base64 decoder. -/
def bufferFromBase64 (s : String) : List Nat := (atobBytes s).getD []

/-- Vercel Blob `put` with `addRandomSuffix: false`: create or replace. -/
def putBlob (store : List (String × List Nat)) (k : String) (v : List Nat) :
    List (String × List Nat) :=
  match alookup k store with
  | some _ => store.map (fun p => if p.1 = k then (k, v) else p)
  | none => store ++ [(k, v)]

/-- Blob-revision `getFromCache`: look up the blob named after the ORIGINAL
text; on a hit, re-encode the stored bytes to base64 for the client. -/
def getFromCache (store : List (String × List Nat)) (text : String) :
    Option String :=
  (alookup (blobFilename text) store).map b64encode

/-- Blob-revision `saveToCache`: decode the base64 payload and store the
bytes under the blob name of the ORIGINAL text. -/
def saveToCache (store : List (String × List Nat)) (text base64Audio : String) :
    List (String × List Nat) :=
  putBlob store (blobFilename text) (bufferFromBase64 base64Audio)

/-- Result of one Blob-variant request. -/
structure BlobOut where
  res : ApiResult
  store : List (String × List Nat)
  eff : Effects

/-- Vercel-Blob revision of the endpoint (`api/tts.ts` lines 148-210):
validate, look up the blob cache under the ORIGINAL text, on miss fetch the
external source addressed by the normalized (`ü`->`v`) text with no tone
fallback, validate content type and size, save under the ORIGINAL text,
respond with base64 audio. -/
def handlerBlob (upstream : String → UpstreamResp) (store : List (String × List Nat))
    (req : ApiRequest) : BlobOut :=
  if req.method ≠ "POST" then
    ⟨⟨405, some "Method Not Allowed", none⟩, store, ⟨0, 0, 0⟩⟩
  else
    match req.text with
    | none => ⟨⟨400, some "Text is required", none⟩, store, ⟨0, 0, 0⟩⟩
    | some t =>
      if t = "" then ⟨⟨400, some "Text is required", none⟩, store, ⟨0, 0, 0⟩⟩
      else
        match getFromCache store t with
        | some cached => ⟨⟨200, none, some cached⟩, store, ⟨0, 1, 0⟩⟩
        | none =>
          let downloadChar := normalizeU t
          let r := upstream (pinyinUrl downloadChar)
          if !r.respOk then
            ⟨⟨404, some ("Audio source not found (Status: " ++ toString r.status ++ ")"), none⟩,
             store, ⟨1, 1, 0⟩⟩
          else if (match r.contentType with
                   | some ct => strIncludes ct "text/html"
                   | none => false) then
            ⟨⟨404, some "Audio source returned HTML instead of Audio", none⟩,
             store, ⟨1, 1, 0⟩⟩
          else if r.body.length < 100 then
            ⟨⟨500, some "Audio file invalid or empty", none⟩, store, ⟨1, 1, 0⟩⟩
          else
            let b64 := b64encode r.body
            ⟨⟨200, none, some b64⟩, saveToCache store t b64, ⟨1, 1, 1⟩⟩

/-! ## Client model (`services/geminiService.ts` and its revision variants)

The resolve path of `playPinyinAudio`: memory cache, then pending-request
table (deduplication), then localStorage, then a network fetch whose promise
is registered in the pending table before any suspension and removed in a
`finally` when it settles. The JavaScript event loop is single threaded, so
the whole cache/pending/localStorage check-and-register prologue runs as one
atomic step; suspension points are only the awaits on the fetch promise. -/

/-- Namespaced localStorage key of the client cache. -/
def storageKeyV1 (pinyin : String) : String := "candy_pinyin_cache_v1_" ++ pinyin

/-- Server response as seen by the client fetch: the `ok` flag and the
optional `audioData` field of the parsed JSON body. -/
structure ClientResp where
  ok : Bool
  audioData : Option String

/-- Failures of the client fetch promise body. -/
inductive FetchErr
  | serverError
  | noAudioData
  | badBase64
deriving DecidableEq

/-- Body of the fetch promise in `playPinyinAudio`
(`services/geminiService.ts` lines 72-97), sequential view: throw on a
non-ok response, throw when `audioData` is absent (or empty, by JavaScript
truthiness), write localStorage, then base64-decode (where `atob` can still
throw). Returns the outcome and the new localStorage contents. -/
def fetchBody (resp : ClientResp) (ls : List (String × String)) (pinyin : String) :
    Except FetchErr (List Nat) × List (String × String) :=
  if !resp.ok then (.error .serverError, ls)
  else
    match resp.audioData with
    | none => (.error .noAudioData, ls)
    | some s =>
      if s = "" then (.error .noAudioData, ls)
      else
        let ls' := (storageKeyV1 pinyin, s) :: ls
        match decodeBase64 s with
        | none => (.error .badBase64, ls')
        | some bytes => (.ok bytes, ls')

/-- Phase of one caller of `playPinyinAudio`: not yet run, suspended on the
fetch promise `fid`, or finished with `some payload` or `none` (error). -/
inductive Phase
  | ready
  | waiting (fid : Nat)
  | done (r : Option (List Nat))
deriving DecidableEq

/-- One caller and the key it requests. -/
structure TaskState where
  key : String
  phase : Phase
deriving DecidableEq

/-- Client state: memory cache, durable localStorage (values stand for the
byte payloads their stored base64 strings decode to), pending-request table,
in-flight fetches, fresh-promise counter, log of every fetch ever issued,
and the callers. -/
structure ClientState where
  mem : List (String × List Nat)
  localStore : List (String × List Nat)
  pending : List (String × Nat)
  inflight : List (Nat × String)
  nextId : Nat
  issued : List (Nat × String)
  tasks : List TaskState

/-- The synchronous prologue of one `playPinyinAudio` call for key `k`:
check the memory cache, then the pending table, then localStorage
(rehydrate into the memory cache), else register a fresh pending fetch.
No suspension occurs between the checks and the registration. -/
def startPhase (s : ClientState) (k : String) : Phase × ClientState :=
  match alookup k s.mem with
  | some p => (.done (some p), s)
  | none =>
    match alookup k s.pending with
    | some fid => (.waiting fid, s)
    | none =>
      match alookup k s.localStore with
      | some p => (.done (some p), { s with mem := (k, p) :: s.mem })
      | none =>
        let fid := s.nextId
        (.waiting fid,
         { s with
            pending := (k, fid) :: s.pending,
            inflight := (fid, k) :: s.inflight,
            issued := (fid, k) :: s.issued,
            nextId := s.nextId + 1 })

/-- Run the prologue of caller `i` (no-op unless it is still `ready`). -/
def runStart (s : ClientState) (i : Nat) : ClientState :=
  match s.tasks.get? i with
  | some ⟨k, .ready⟩ =>
    let res := startPhase s k
    { res.2 with tasks := res.2.tasks.set i ⟨k, res.1⟩ }
  | _ => s

/-- Deliver the settled outcome `r` of promise `fid` to one caller. -/
def settleTask (fid : Nat) (r : Option (List Nat)) (t : TaskState) : TaskState :=
  match t.phase with
  | .waiting fid' => if fid' = fid then { t with phase := .done r } else t
  | _ => t

/-- Settlement of the fetch for promise `fid` on key `k`: the creator's
`try`/`finally` removes the pending entry whether the fetch succeeded or
failed; on success the memory cache and localStorage gain the payload; every
awaiting caller receives the same outcome. `result` fixes the outcome of
the (single) network fetch per key. -/
def runSettle (result : String → Option (List Nat)) (s : ClientState) (fid : Nat) :
    ClientState :=
  match alookup fid s.inflight with
  | none => s
  | some k =>
    let r := result k
    { s with
      inflight := s.inflight.filter (fun p => p.1 != fid),
      pending := s.pending.filter (fun p => p.1 != k),
      mem := match r with | some p => (k, p) :: s.mem | none => s.mem,
      localStore := match r with | some p => (k, p) :: s.localStore | none => s.localStore,
      tasks := s.tasks.map (settleTask fid r) }

/-- Interleaving semantics: at each step the scheduler either runs the
synchronous prologue of a still-ready caller or settles an in-flight fetch. -/
inductive ClientStep (result : String → Option (List Nat)) :
    ClientState → ClientState → Prop
  | start (s : ClientState) (i : Nat) (t : TaskState)
      (hi : s.tasks.get? i = some t) (hr : t.phase = .ready) :
      ClientStep result s (runStart s i)
  | settle (s : ClientState) (fid : Nat) (k : String)
      (hk : alookup fid s.inflight = some k) :
      ClientStep result s (runSettle result s fid)

/-- Number of network fetches ever issued for key `k`. -/
def issuedCount (s : ClientState) (k : String) : Nat :=
  (s.issued.filter (fun p => p.2 == k)).length

/-- Initial state of `N` concurrent callers of the same key `k` on a cold
client: empty caches, no pending requests. -/
def coldState (N : Nat) (k : String) : ClientState :=
  ⟨[], [], [], [], 0, [], List.replicate N ⟨k, .ready⟩⟩

/-- Run a sequence of caller prologues in scheduler order. -/
def runStarts (s : ClientState) : List Nat → ClientState
  | [] => s
  | i :: is => runStarts (runStart s i) is

theorem alookup_mem {α β : Type} [DecidableEq α] {a : α} {b : β} {l : List (α × β)}
    (h : alookup a l = some b) : (a, b) ∈ l := by
  induction l with
  | nil => simp [alookup] at h
  | cons p ps ih =>
    by_cases hp : p.1 = a
    · simp [alookup, hp] at h
      exact List.mem_cons.mpr (Or.inl (Prod.ext hp h).symm)
    · simp [alookup, hp] at h
      exact List.mem_cons_of_mem _ (ih h)

theorem alookup_filter_ne {α β : Type} [DecidableEq α] [BEq α] [LawfulBEq α]
    {a k : α} (h : a ≠ k) (l : List (α × β)) :
    alookup a (l.filter (fun p => p.1 != k)) = alookup a l := by
  induction l with
  | nil => rfl
  | cons p ps ih =>
    rcases eq_or_ne p.1 k with hp | hp
    · have hne : p.1 ≠ a := fun hh => h (hh ▸ hp)
      simp [List.filter_cons, hp, alookup, hne, ih, Ne.symm h]
    · by_cases ha : p.1 = a
      · simp [List.filter_cons, hp, alookup, ha, bne_iff_ne, h]
      · simp [List.filter_cons, hp, alookup, ha, ih, bne_iff_ne, h]

/-- Auxiliary invariant: the keys of in-flight fetches are pairwise
distinct, and every in-flight fetch still has its pending-table entry. -/
structure ClientInv (s : ClientState) : Prop where
  keysNodup : (s.inflight.map Prod.snd).Nodup
  inflight_pend : ∀ p ∈ s.inflight, alookup p.2 s.pending ≠ none

theorem clientInv_runStart (s : ClientState) (i : Nat) (h : ClientInv s) :
    ClientInv (runStart s i) := by
  unfold runStart
  cases hget : s.tasks.get? i with
  | none => exact h
  | some t =>
    rcases t with ⟨k, ph⟩
    cases ph with
    | waiting fid => exact h
    | done r => exact h
    | ready =>
      simp only
      unfold startPhase
      cases hm : alookup k s.mem with
      | some p => exact ⟨h.keysNodup, h.inflight_pend⟩
      | none =>
        cases hp : alookup k s.pending with
        | some fid => exact ⟨h.keysNodup, h.inflight_pend⟩
        | none =>
          cases hl : alookup k s.localStore with
          | some p => exact ⟨h.keysNodup, h.inflight_pend⟩
          | none =>
            refine ⟨?_, ?_⟩
            · simp only [List.map_cons]
              refine List.nodup_cons.mpr ⟨?_, h.keysNodup⟩
              intro hk
              rcases List.mem_map.mp hk with ⟨q, hq, hq2⟩
              exact h.inflight_pend q hq (hq2 ▸ hp)
            · intro q hq
              rcases List.mem_cons.mp hq with rfl | hq'
              · simp [alookup]
              · by_cases hqk : q.2 = k
                · simp [alookup, hqk]
                · simpa [alookup, Ne.symm hqk] using h.inflight_pend q hq'

theorem clientInv_runSettle (result : String → Option (List Nat))
    (s : ClientState) (fid : Nat) (h : ClientInv s) :
    ClientInv (runSettle result s fid) := by
  unfold runSettle
  cases hk : alookup fid s.inflight with
  | none => exact h
  | some k =>
    have hmemfid : (fid, k) ∈ s.inflight := alookup_mem hk
    refine ⟨?_, ?_⟩
    · simp only
      exact ((List.filter_sublist _).map Prod.snd).nodup h.keysNodup
    · intro q hq
      simp only [List.mem_filter] at hq
      rcases hq with ⟨hq1, hq2⟩
      have hqfid : q.1 ≠ fid := by simpa using hq2
      have hqk : q.2 ≠ k := by
        intro hqk
        have := List.inj_on_of_nodup_map h.keysNodup hq1 hmemfid (by simpa using hqk)
        exact hqfid (congrArg Prod.fst this)
      simp only
      rw [alookup_filter_ne hqk]
      exact h.inflight_pend q hq1

/-- In every reachable state there is at most one in-flight fetch per key:
the list of in-flight keys stays duplicate-free. -/
theorem clientInv_reach (result : String → Option (List Nat))
    (s₀ s : ClientState) (h₀ : ClientInv s₀)
    (h : Relation.ReflTransGen (ClientStep result) s₀ s) : ClientInv s := by
  induction h with
  | refl => exact h₀
  | tail _ hstep ih =>
    cases hstep with
    | start i t hi hr => exact clientInv_runStart _ _ ih
    | settle fid k hk => exact clientInv_runSettle _ _ _ ih

theorem startPhase_register (s : ClientState) (k : String)
    (hm : alookup k s.mem = none) (hp : alookup k s.pending = none)
    (hl : alookup k s.localStore = none) :
    startPhase s k = (Phase.waiting s.nextId,
      { s with pending := (k, s.nextId) :: s.pending,
               inflight := (s.nextId, k) :: s.inflight,
               issued := (s.nextId, k) :: s.issued,
               nextId := s.nextId + 1 }) := by
  unfold startPhase
  rw [hm, hp, hl]

theorem startPhase_pendingHit (s : ClientState) (k : String) (fid : Nat)
    (hm : alookup k s.mem = none) (hp : alookup k s.pending = some fid) :
    startPhase s k = (Phase.waiting fid, s) := by
  unfold startPhase
  rw [hm, hp]

theorem startPhase_memHit (s : ClientState) (k : String) (p : List Nat)
    (hm : alookup k s.mem = some p) :
    startPhase s k = (Phase.done (some p), s) := by
  unfold startPhase
  rw [hm]

theorem startPhase_fst_ne_ready (s : ClientState) (k : String) :
    (startPhase s k).1 ≠ Phase.ready := by
  unfold startPhase
  cases alookup k s.mem with
  | some p => simp
  | none =>
    cases alookup k s.pending with
    | some fid => simp
    | none =>
      cases alookup k s.localStore with
      | some p => simp
      | none => simp

theorem startPhase_tasks (s : ClientState) (k : String) :
    (startPhase s k).2.tasks = s.tasks := by
  unfold startPhase
  cases alookup k s.mem with
  | some p => rfl
  | none =>
    cases alookup k s.pending with
    | some fid => rfl
    | none =>
      cases alookup k s.localStore with
      | some p => rfl
      | none => rfl

theorem runStart_none_eq (s : ClientState) (i : Nat)
    (hget : s.tasks.get? i = none) : runStart s i = s := by
  unfold runStart
  rw [hget]

theorem runStart_nonready_eq (s : ClientState) (i : Nat) (k' : String) (ph : Phase)
    (hget : s.tasks.get? i = some ⟨k', ph⟩) (ht : ph ≠ Phase.ready) :
    runStart s i = s := by
  unfold runStart
  rw [hget]
  cases ph with
  | ready => exact absurd rfl ht
  | waiting fid => rfl
  | done r => rfl

theorem runStart_ready_eq (s : ClientState) (i : Nat) (k : String)
    (hget : s.tasks.get? i = some ⟨k, Phase.ready⟩) :
    runStart s i = { (startPhase s k).2 with
      tasks := (startPhase s k).2.tasks.set i ⟨k, (startPhase s k).1⟩ } := by
  unfold runStart
  rw [hget]

theorem runStart_tasks_length (s : ClientState) (i : Nat) :
    (runStart s i).tasks.length = s.tasks.length := by
  cases hget : s.tasks.get? i with
  | none => rw [runStart_none_eq s i hget]
  | some u =>
    rcases u with ⟨k', ph⟩
    by_cases hr : ph = Phase.ready
    · subst hr
      rw [runStart_ready_eq s i k' hget]
      simp [startPhase_tasks]
    · rw [runStart_nonready_eq s i k' ph hget hr]

theorem runStart_preserve_nonready (s : ClientState) (i j : Nat) (t : TaskState)
    (hj : s.tasks.get? j = some t) (ht : t.phase ≠ Phase.ready) :
    (runStart s i).tasks.get? j = some t := by
  cases hget : s.tasks.get? i with
  | none => rw [runStart_none_eq s i hget]; exact hj
  | some u =>
    rcases u with ⟨k', ph⟩
    by_cases hr : ph = Phase.ready
    · subst hr
      rw [runStart_ready_eq s i k' hget]
      simp only [startPhase_tasks]
      by_cases hij : i = j
      · subst hij
        rw [hget] at hj
        injection hj with hj'
        subst hj'
        exact absurd rfl ht
      · rw [List.get?_set_ne _ _ hij]
        exact hj
    · rw [runStart_nonready_eq s i k' ph hget hr]; exact hj

theorem runStart_self_nonready (s : ClientState) (j : Nat) (t : TaskState)
    (h : (runStart s j).tasks.get? j = some t) : t.phase ≠ Phase.ready := by
  cases hget : s.tasks.get? j with
  | none =>
    rw [runStart_none_eq s j hget] at h
    rw [hget] at h
    cases h
  | some u =>
    rcases u with ⟨k', ph⟩
    by_cases hr : ph = Phase.ready
    · subst hr
      rw [runStart_ready_eq s j k' hget] at h
      simp only [startPhase_tasks] at h
      have hlt : j < s.tasks.length := by
        rcases List.get?_eq_some.mp hget with ⟨hlt, _⟩
        exact hlt
      rw [List.get?_set_eq_of_lt _ hlt] at h
      injection h with h'
      rw [← h']
      exact startPhase_fst_ne_ready s k'
    · rw [runStart_nonready_eq s j k' ph hget hr] at h
      rw [hget] at h
      injection h with h'
      rw [← h']
      exact hr

theorem runStarts_preserve_nonready (order : List Nat) (s : ClientState) (j : Nat)
    (t : TaskState) (hj : s.tasks.get? j = some t) (ht : t.phase ≠ Phase.ready) :
    (runStarts s order).tasks.get? j = some t := by
  induction order generalizing s with
  | nil => exact hj
  | cons i is ih => exact ih _ (runStart_preserve_nonready s i j t hj ht)

theorem runStarts_tasks_length (order : List Nat) (s : ClientState) :
    (runStarts s order).tasks.length = s.tasks.length := by
  induction order generalizing s with
  | nil => rfl
  | cons i is ih =>
    rw [runStarts, ih]
    exact runStart_tasks_length s i

theorem runStarts_started (order : List Nat) (s : ClientState) (j : Nat)
    (hj : j ∈ order) (t : TaskState)
    (h : (runStarts s order).tasks.get? j = some t) : t.phase ≠ Phase.ready := by
  induction order generalizing s with
  | nil => cases hj
  | cons i is ih =>
    rw [runStarts] at h
    rcases List.mem_cons.mp hj with rfl | hj'
    · cases hget : (runStart s j).tasks.get? j with
      | none =>
        have hnone : (runStarts (runStart s j) is).tasks.get? j = none := by
          rw [List.get?_eq_none] at hget ⊢
          rw [runStarts_tasks_length]
          exact hget
        rw [hnone] at h
        cases h
      | some u =>
        have hu : u.phase ≠ Phase.ready := runStart_self_nonready s j u hget
        have hpres := runStarts_preserve_nonready is (runStart s j) j u hget hu
        rw [hpres] at h
        injection h with h'
        rw [← h']
        exact hu
    · exact ih _ hj' h

/-- Invariant of the all-starts phase of `N` concurrent callers of key `k`
from a cold client: either nobody has run yet, or exactly one fetch
(promise id 0) has been issued and every caller is still ready or awaiting
promise 0. -/
def StartsInv (N : Nat) (k : String) (s : ClientState) : Prop :=
  s.mem = [] ∧ s.localStore = [] ∧
  ((s.pending = [] ∧ s.inflight = [] ∧ s.issued = [] ∧ s.nextId = 0 ∧
      s.tasks = List.replicate N ⟨k, Phase.ready⟩) ∨
    (s.pending = [(k, 0)] ∧ s.inflight = [(0, k)] ∧ s.issued = [(0, k)] ∧
      s.tasks.length = N ∧
      ∀ t ∈ s.tasks, t.key = k ∧ (t.phase = Phase.ready ∨ t.phase = Phase.waiting 0)))

theorem startsInv_cold (N : Nat) (k : String) : StartsInv N k (coldState N k) :=
  ⟨rfl, rfl, Or.inl ⟨rfl, rfl, rfl, rfl, rfl⟩⟩

theorem startsInv_runStart (N : Nat) (k : String) (s : ClientState) (i : Nat)
    (h : StartsInv N k s) : StartsInv N k (runStart s i) := by
  obtain ⟨hmem, hloc, hcase⟩ := h
  cases hget : s.tasks.get? i with
  | none => rw [runStart_none_eq s i hget]; exact ⟨hmem, hloc, hcase⟩
  | some u =>
    rcases u with ⟨k', ph⟩
    have hmemu : (⟨k', ph⟩ : TaskState) ∈ s.tasks := by
      rcases List.get?_eq_some.mp hget with ⟨hlt, hgt⟩
      exact hgt ▸ List.get_mem _ _ _
    by_cases hr : ph = Phase.ready
    case neg =>
      rw [runStart_nonready_eq s i k' ph hget hr]
      exact ⟨hmem, hloc, hcase⟩
    subst hr
    rcases hcase with ⟨hp, hif, hiss, hnext, htasks⟩ | ⟨hp, hif, hiss, hlen, hall⟩
    · have hk' : k' = k := by
        rw [htasks] at hmemu
        have h2 := List.eq_of_mem_replicate hmemu
        injection h2 with h21 h22
      subst k'
      have hm0 : alookup k s.mem = none := by rw [hmem]; rfl
      have hp0 : alookup k s.pending = none := by rw [hp]; rfl
      have hl0 : alookup k s.localStore = none := by rw [hloc]; rfl
      rw [runStart_ready_eq s i k hget, startPhase_register s k hm0 hp0 hl0]
      refine ⟨hmem, hloc, Or.inr ⟨?_, ?_, ?_, ?_, ?_⟩⟩
      · simp [hp, hnext]
      · simp [hif, hnext]
      · simp [hiss, hnext]
      · simp [htasks]
      · intro t ht
        simp only at ht
        rcases List.mem_or_eq_of_mem_set ht with ht' | rfl
        · rw [htasks] at ht'
          have h3 := List.eq_of_mem_replicate ht'
          subst h3
          exact ⟨rfl, Or.inl rfl⟩
        · exact ⟨rfl, Or.inr (by rw [hnext])⟩
    · have hk' : k' = k := (hall _ hmemu).1
      subst k'
      have hm0 : alookup k s.mem = none := by rw [hmem]; rfl
      have hp0 : alookup k s.pending = some 0 := by rw [hp]; simp [alookup]
      rw [runStart_ready_eq s i k hget, startPhase_pendingHit s k 0 hm0 hp0]
      refine ⟨hmem, hloc, Or.inr ⟨hp, hif, hiss, by simp [hlen], ?_⟩⟩
      intro t ht
      simp only at ht
      rcases List.mem_or_eq_of_mem_set ht with ht' | rfl
      · exact hall _ ht'
      · exact ⟨rfl, Or.inr rfl⟩

theorem startsInv_runStarts (N : Nat) (k : String) (order : List Nat) (s : ClientState)
    (h : StartsInv N k s) : StartsInv N k (runStarts s order) := by
  induction order generalizing s with
  | nil => exact h
  | cons i is ih => exact ih _ (startsInv_runStart N k s i h)

theorem cold_all_waiting (N : Nat) (k : String) (order : List Nat)
    (hN : 1 ≤ N) (horder : ∀ j, j < N → j ∈ order) :
    (runStarts (coldState N k) order).pending = [(k, 0)] ∧
    (runStarts (coldState N k) order).inflight = [(0, k)] ∧
    (runStarts (coldState N k) order).issued = [(0, k)] ∧
    (runStarts (coldState N k) order).mem = [] ∧
    (runStarts (coldState N k) order).localStore = [] ∧
    (runStarts (coldState N k) order).tasks.length = N ∧
    ∀ t ∈ (runStarts (coldState N k) order).tasks,
      t.key = k ∧ t.phase = Phase.waiting 0 := by
  obtain ⟨hmem, hloc, hcase⟩ := startsInv_runStarts N k order _ (startsInv_cold N k)
  rcases hcase with ⟨hp, hif, hiss, hnext, htasks⟩ | ⟨hp, hif, hiss, hlen, hall⟩
  · exfalso
    have h0 : (runStarts (coldState N k) order).tasks.get? 0 =
        some ⟨k, Phase.ready⟩ := by
      rw [htasks]
      cases N with
      | zero => omega
      | succ n => rfl
    exact runStarts_started order _ 0 (horder 0 (by omega)) _ h0 rfl
  · refine ⟨hp, hif, hiss, hmem, hloc, hlen, ?_⟩
    intro t ht
    rcases List.mem_iff_get?.mp ht with ⟨n, hn⟩
    have hlt2 : n < N := by
      rcases List.get?_eq_some.mp hn with ⟨hlt2, _⟩
      rw [hlen] at hlt2
      exact hlt2
    have hnr := runStarts_started order _ n (horder n hlt2) t hn
    rcases (hall t ht).2 with hready | hw
    · exact absurd hready hnr
    · exact ⟨(hall t ht).1, hw⟩

theorem runSettle_eq (result : String → Option (List Nat)) (s : ClientState)
    (fid : Nat) (k : String) (hk : alookup fid s.inflight = some k) :
    runSettle result s fid = { s with
      inflight := s.inflight.filter (fun p => p.1 != fid),
      pending := s.pending.filter (fun p => p.1 != k),
      mem := match result k with | some p => (k, p) :: s.mem | none => s.mem,
      localStore := match result k with
                    | some p => (k, p) :: s.localStore
                    | none => s.localStore,
      tasks := s.tasks.map (settleTask fid (result k)) } := by
  unfold runSettle
  rw [hk]

/-- C1: for every pronunciation key, concurrent callers of `playPinyinAudio`
share a single fetch. (i) From any state with no in-flight fetches, every
reachable state has pairwise-distinct in-flight keys, i.e. never more than
one in-flight fetch per key. (ii) `N` callers of key `k` on a cold client
whose synchronous prologues all run (in any scheduler order) before the
single fetch settles issue exactly one network request to `/api/tts` for
`k`, and every caller finishes with the same outcome `result k` — the same
payload, or the same error. -/
theorem playPinyinAudio_dedup (result : String → Option (List Nat))
    (N : Nat) (k : String) (order : List Nat)
    (hN : 1 ≤ N) (horder : ∀ j, j < N → j ∈ order) :
    (∀ s₀ s : ClientState, s₀.inflight = [] →
      Relation.ReflTransGen (ClientStep result) s₀ s →
      (s.inflight.map Prod.snd).Nodup) ∧
    issuedCount (runSettle result (runStarts (coldState N k) order) 0) k = 1 ∧
    ∀ t ∈ (runSettle result (runStarts (coldState N k) order) 0).tasks,
      t.phase = Phase.done (result k) := by
  obtain ⟨hp, hif, hiss, hmem, hloc, hlen, hall⟩ :=
    cold_all_waiting N k order hN horder
  have hlk : alookup 0 (runStarts (coldState N k) order).inflight = some k := by
    rw [hif]; simp [alookup]
  rw [runSettle_eq result _ 0 k hlk]
  refine ⟨?_, ?_, ?_⟩
  · intro s₀ s h0 hreach
    have inv0 : ClientInv s₀ :=
      ⟨by rw [h0]; exact List.nodup_nil,
       fun p hp' => absurd (h0 ▸ hp') (List.not_mem_nil p)⟩
    exact (clientInv_reach result s₀ s inv0 hreach).keysNodup
  · simp [issuedCount, hiss]
  · intro t ht
    simp only [List.mem_map] at ht
    rcases ht with ⟨t₀, ht₀, rfl⟩
    have hw := (hall t₀ ht₀).2
    simp [settleTask, hw]

/-- Witness for C1 at `N = 2`, `k = "ma"`, scheduler order `[0, 1]`. -/
theorem playPinyinAudio_dedup_witness :
    (1 ≤ 2 ∧ ∀ j, j < 2 → j ∈ [0, 1]) ∧
    (issuedCount
      (runSettle (fun _ => some [7, 7, 7]) (runStarts (coldState 2 "ma") [0, 1]) 0)
      "ma" = 1 ∧
    ∀ t ∈ (runSettle (fun _ => some [7, 7, 7])
        (runStarts (coldState 2 "ma") [0, 1]) 0).tasks,
      t.phase = Phase.done (some [7, 7, 7])) :=
  ⟨⟨by omega, by decide⟩,
   (playPinyinAudio_dedup (fun _ => some [7, 7, 7]) 2 "ma" [0, 1]
      (by omega) (by decide)).2⟩

theorem alookup_filter_self {α β : Type} [DecidableEq α] [BEq α] [LawfulBEq α]
    (k : α) (l : List (α × β)) :
    alookup k (l.filter (fun p => p.1 != k)) = none := by
  induction l with
  | nil => rfl
  | cons p ps ih =>
    by_cases hp : p.1 = k
    · simp [List.filter_cons, hp, ih]
    · simp [List.filter_cons, hp, alookup, ih, bne_iff_ne]

/-- C6: after a first resolve of key `k` has settled successfully with
payload `p`, a second sequential `playPinyinAudio` call is answered
synchronously from the memory cache: the fetch log still records exactly
one network request (and is unchanged by the second call), and both callers
end with the byte-identical payload `p`. -/
theorem playPinyinAudio_cache_idempotent (k : String) (p : List Nat) :
    issuedCount
      (runStart (runSettle (fun _ => some p) (runStart (coldState 2 k) 0) 0) 1) k = 1 ∧
    (runStart (runSettle (fun _ => some p) (runStart (coldState 2 k) 0) 0) 1).issued =
      (runSettle (fun _ => some p) (runStart (coldState 2 k) 0) 0).issued ∧
    ∀ t ∈ (runStart (runSettle (fun _ => some p) (runStart (coldState 2 k) 0) 0) 1).tasks,
      t.phase = Phase.done (some p) := by
  simp [coldState, runStart, startPhase, alookup, runSettle, settleTask,
    issuedCount, List.replicate, List.filter]

/-- C7: the pending-table entry of a key is removed exactly when its fetch
settles, success or failure: settling removes it, while no caller prologue
ever removes an existing pending entry. On failure the error propagates to
every caller awaiting that fetch, and neither the memory cache nor
localStorage changes. At the level of the sequential fetch body, every
server failure response — non-ok status, or a response without `audioData`
— yields an error with localStorage untouched. -/
theorem pending_removed_on_settle (result : String → Option (List Nat))
    (s : ClientState) (fid : Nat) (k : String)
    (hk : alookup fid s.inflight = some k) :
    alookup k (runSettle result s fid).pending = none ∧
    (∀ i k' fid', alookup k' s.pending = some fid' →
      alookup k' (runStart s i).pending = some fid') ∧
    (result k = none →
      (runSettle result s fid).mem = s.mem ∧
      (runSettle result s fid).localStore = s.localStore ∧
      ∀ j t, s.tasks.get? j = some t → t.phase = Phase.waiting fid →
        (runSettle result s fid).tasks.get? j = some ⟨t.key, Phase.done none⟩) ∧
    (∀ (resp : ClientResp) (ls : List (String × String)) (pinyin : String),
      resp.ok = false ∨ resp.audioData = none →
      (fetchBody resp ls pinyin).2 = ls ∧
      ∃ e, (fetchBody resp ls pinyin).1 = Except.error e) := by
  refine ⟨?_, ?_, ?_, ?_⟩
  · rw [runSettle_eq result s fid k hk]
    exact alookup_filter_self k s.pending
  · intro i k' fid' hp'
    cases hget : s.tasks.get? i with
    | none => rw [runStart_none_eq s i hget]; exact hp'
    | some u =>
      rcases u with ⟨k2, ph⟩
      by_cases hr : ph = Phase.ready
      · subst hr
        rw [runStart_ready_eq s i k2 hget]
        unfold startPhase
        cases hm : alookup k2 s.mem with
        | some q => exact hp'
        | none =>
          cases hpd : alookup k2 s.pending with
          | some fid2 => exact hp'
          | none =>
            cases hl : alookup k2 s.localStore with
            | some q => exact hp'
            | none =>
              have hne : k2 ≠ k' := by
                intro hh
                rw [hh, hp'] at hpd
                cases hpd
              simp only [alookup, hne, if_neg hne]
              exact hp'
      · rw [runStart_nonready_eq s i k2 ph hget hr]; exact hp'
  · intro hfail
    rw [runSettle_eq result s fid k hk, hfail]
    refine ⟨rfl, rfl, ?_⟩
    intro j t hj ht
    rw [List.get?_map, hj]
    simp [settleTask, ht]
  · intro resp ls pinyin hfail
    rcases hfail with hok | hdata
    · simp [fetchBody, hok]
    · unfold fetchBody
      cases hok : resp.ok with
      | false => simp
      | true => simp [hdata]

/-- Witness for C7: one caller of key `"ma"`, whose fetch fails. -/
theorem pending_removed_on_settle_witness :
    alookup 0 (runStart (coldState 1 "ma") 0).inflight = some "ma" ∧
    (alookup "ma"
        (runSettle (fun _ => none) (runStart (coldState 1 "ma") 0) 0).pending = none ∧
      (∀ i k' fid',
        alookup k' (runStart (coldState 1 "ma") 0).pending = some fid' →
        alookup k' (runStart (runStart (coldState 1 "ma") 0) i).pending = some fid') ∧
      ((fun _ => none : String → Option (List Nat)) "ma" = none →
        (runSettle (fun _ => none) (runStart (coldState 1 "ma") 0) 0).mem =
          (runStart (coldState 1 "ma") 0).mem ∧
        (runSettle (fun _ => none) (runStart (coldState 1 "ma") 0) 0).localStore =
          (runStart (coldState 1 "ma") 0).localStore ∧
        ∀ j t, (runStart (coldState 1 "ma") 0).tasks.get? j = some t →
          t.phase = Phase.waiting 0 →
          (runSettle (fun _ => none) (runStart (coldState 1 "ma") 0) 0).tasks.get? j =
            some ⟨t.key, Phase.done none⟩) ∧
      (∀ (resp : ClientResp) (ls : List (String × String)) (pinyin : String),
        resp.ok = false ∨ resp.audioData = none →
        (fetchBody resp ls pinyin).2 = ls ∧
        ∃ e, (fetchBody resp ls pinyin).1 = Except.error e)) :=
  ⟨by decide,
   pending_removed_on_settle (fun _ => none) (runStart (coldState 1 "ma") 0) 0 "ma"
     (by decide)⟩

theorem alookup_append_self {α β : Type} [DecidableEq α] (l : List (α × β))
    (k : α) (v : β) (h : alookup k l = none) :
    alookup k (l ++ [(k, v)]) = some v := by
  induction l with
  | nil => simp [alookup]
  | cons p ps ih =>
    by_cases hp : p.1 = k
    · rw [alookup, if_pos hp] at h
      cases h
    · rw [alookup, if_neg hp] at h
      rw [List.cons_append, alookup, if_neg hp]
      exact ih h

theorem alookup_insertIfAbsent_self (store : List (String × String)) (k v : String)
    (h : alookup k store = none) :
    alookup k (insertIfAbsent store k v) = some v := by
  unfold insertIfAbsent
  rw [h]
  exact alookup_append_self store k v h

theorem alookup_putBlob_self (store : List (String × List Nat)) (k : String)
    (v : List Nat) (h : alookup k store = none) :
    alookup k (putBlob store k v) = some v := by
  unfold putBlob
  rw [h]
  exact alookup_append_self store k v h

theorem handlerPG_hit (upstream : String → UpstreamResp)
    (store : List (String × String)) (t v : String) (ht : t ≠ "")
    (hhit : alookup (normalizeU t) store = some v) :
    handlerPG upstream store ⟨"POST", some t⟩ = ⟨⟨200, none, some v⟩, store, ⟨0, 1, 0⟩⟩ := by
  simp [handlerPG, ht, hhit]

theorem handlerBlob_hit (upstream : String → UpstreamResp)
    (store : List (String × List Nat)) (t : String) (bytes : List Nat) (ht : t ≠ "")
    (hhit : alookup (blobFilename t) store = some bytes) :
    handlerBlob upstream store ⟨"POST", some t⟩ =
      ⟨⟨200, none, some (b64encode bytes)⟩, store, ⟨0, 1, 0⟩⟩ := by
  simp [handlerBlob, ht, getFromCache, hhit]

theorem handlerPG_success (upstream : String → UpstreamResp)
    (store : List (String × String)) (t : String) (r : UpstreamResp) (ht : t ≠ "")
    (hmiss : alookup (normalizeU t) store = none)
    (hup : upstream (pinyinUrl (normalizeU t)) = r)
    (hst : r.status = 200)
    (hct : (match r.contentType with
            | some ct => strIncludes ct "text/html"
            | none => false) = false)
    (hlen : 100 ≤ r.body.length) :
    handlerPG upstream store ⟨"POST", some t⟩ =
      ⟨⟨200, none, some (b64encode r.body)⟩,
       insertIfAbsent store (normalizeU t) (b64encode r.body), ⟨1, 1, 1⟩⟩ := by
  simp [handlerPG, ht, hmiss, hup, hst, hct, UpstreamResp.respOk, Nat.not_lt.mpr hlen]

theorem handlerBlob_success (upstream : String → UpstreamResp)
    (store : List (String × List Nat)) (t : String) (r : UpstreamResp) (ht : t ≠ "")
    (hmiss : alookup (blobFilename t) store = none)
    (hup : upstream (pinyinUrl (normalizeU t)) = r)
    (hok : r.respOk = true)
    (hct : (match r.contentType with
            | some ct => strIncludes ct "text/html"
            | none => false) = false)
    (hlen : 100 ≤ r.body.length) :
    handlerBlob upstream store ⟨"POST", some t⟩ =
      ⟨⟨200, none, some (b64encode r.body)⟩,
       saveToCache store t (b64encode r.body), ⟨1, 1, 1⟩⟩ := by
  simp [handlerBlob, ht, getFromCache, hmiss, hup, hok, hct, Nat.not_lt.mpr hlen]

/-- C9: a POST `/api/tts` whose body has no `text` field is answered 400
with body error `Text is required` by both endpoint revisions, with no
upstream fetch, no cache read, no cache write, and an unchanged store. -/
theorem handler_missing_text (upstream : String → UpstreamResp)
    (storePG : List (String × String)) (storeBlob : List (String × List Nat)) :
    handlerPG upstream storePG ⟨"POST", none⟩ =
      ⟨⟨400, some "Text is required", none⟩, storePG, ⟨0, 0, 0⟩⟩ ∧
    handlerBlob upstream storeBlob ⟨"POST", none⟩ =
      ⟨⟨400, some "Text is required", none⟩, storeBlob, ⟨0, 0, 0⟩⟩ := by
  constructor <;> rfl

/-- C5: when the upstream source answers 200 with a `Content-Type`
containing `text/html`, both endpoint revisions reject with 404 and write
nothing to the durable cache — the store is returned unchanged. -/
theorem handler_html_rejected (upstream : String → UpstreamResp)
    (storePG : List (String × String)) (storeBlob : List (String × List Nat))
    (t : String) (r : UpstreamResp) (ct : String) (ht : t ≠ "")
    (hmissPG : alookup (normalizeU t) storePG = none)
    (hmissBlob : alookup (blobFilename t) storeBlob = none)
    (hup : upstream (pinyinUrl (normalizeU t)) = r)
    (hst : r.status = 200)
    (hctSome : r.contentType = some ct)
    (hhtml : strIncludes ct "text/html" = true) :
    handlerPG upstream storePG ⟨"POST", some t⟩ =
      ⟨⟨404, some "Audio source returned HTML instead of Audio", none⟩,
       storePG, ⟨1, 1, 0⟩⟩ ∧
    handlerBlob upstream storeBlob ⟨"POST", some t⟩ =
      ⟨⟨404, some "Audio source returned HTML instead of Audio", none⟩,
       storeBlob, ⟨1, 1, 0⟩⟩ := by
  have hok : r.respOk = true := by simp [UpstreamResp.respOk, hst]
  constructor
  · simp [handlerPG, ht, hmissPG, hup, hst, hctSome, hhtml, UpstreamResp.respOk]
  · simp [handlerBlob, ht, getFromCache, hmissBlob, hup, hok, hctSome, hhtml]

/-- Witness for C5: a concrete upstream answering 200 `text/html`. -/
theorem handler_html_rejected_witness :
    ("ma" : String) ≠ "" ∧
    (handlerPG (fun _ => ⟨200, some "text/html; charset=utf-8", [60, 104, 116]⟩)
        [] ⟨"POST", some "ma"⟩ =
      ⟨⟨404, some "Audio source returned HTML instead of Audio", none⟩,
       [], ⟨1, 1, 0⟩⟩ ∧
    handlerBlob (fun _ => ⟨200, some "text/html; charset=utf-8", [60, 104, 116]⟩)
        [] ⟨"POST", some "ma"⟩ =
      ⟨⟨404, some "Audio source returned HTML instead of Audio", none⟩,
       [], ⟨1, 1, 0⟩⟩) :=
  ⟨by decide,
   handler_html_rejected (fun _ => ⟨200, some "text/html; charset=utf-8", [60, 104, 116]⟩)
     [] [] "ma" ⟨200, some "text/html; charset=utf-8", [60, 104, 116]⟩
     "text/html; charset=utf-8" (by decide) rfl rfl rfl rfl rfl (by decide)⟩

/-- C4: when the upstream body is shorter than 100 bytes, both endpoint
revisions reject with 500 (`Audio file invalid or empty`) and write nothing
to the durable cache — the store is returned unchanged. -/
theorem handler_small_rejected (upstream : String → UpstreamResp)
    (storePG : List (String × String)) (storeBlob : List (String × List Nat))
    (t : String) (r : UpstreamResp) (ht : t ≠ "")
    (hmissPG : alookup (normalizeU t) storePG = none)
    (hmissBlob : alookup (blobFilename t) storeBlob = none)
    (hup : upstream (pinyinUrl (normalizeU t)) = r)
    (hst : r.status = 200)
    (hct : (match r.contentType with
            | some ct => strIncludes ct "text/html"
            | none => false) = false)
    (hlen : r.body.length < 100) :
    handlerPG upstream storePG ⟨"POST", some t⟩ =
      ⟨⟨500, some "Audio file invalid or empty", none⟩, storePG, ⟨1, 1, 0⟩⟩ ∧
    handlerBlob upstream storeBlob ⟨"POST", some t⟩ =
      ⟨⟨500, some "Audio file invalid or empty", none⟩, storeBlob, ⟨1, 1, 0⟩⟩ := by
  have hok : r.respOk = true := by simp [UpstreamResp.respOk, hst]
  constructor
  · simp [handlerPG, ht, hmissPG, hup, hst, hct, hlen, UpstreamResp.respOk]
  · simp [handlerBlob, ht, getFromCache, hmissBlob, hup, hok, hct, hlen]

/-- Witness for C4: a concrete upstream answering 200 with a 50-byte body. -/
theorem handler_small_rejected_witness :
    (List.replicate 50 1).length < 100 ∧
    (handlerPG (fun _ => ⟨200, some "audio/mpeg", List.replicate 50 1⟩)
        [] ⟨"POST", some "ma"⟩ =
      ⟨⟨500, some "Audio file invalid or empty", none⟩, [], ⟨1, 1, 0⟩⟩ ∧
    handlerBlob (fun _ => ⟨200, some "audio/mpeg", List.replicate 50 1⟩)
        [] ⟨"POST", some "ma"⟩ =
      ⟨⟨500, some "Audio file invalid or empty", none⟩, [], ⟨1, 1, 0⟩⟩) :=
  ⟨by decide,
   handler_small_rejected (fun _ => ⟨200, some "audio/mpeg", List.replicate 50 1⟩)
     [] [] "ma" ⟨200, some "audio/mpeg", List.replicate 50 1⟩
     (by decide) rfl rfl rfl rfl (by decide) (by decide)⟩

/-- C3 (amended): once either endpoint revision has validated and persisted
an upstream payload for original key `t`, a second request with the same
original key returns the byte-identical base64 payload straight from the
cache, with no upstream call and no store change. The Blob revision persists
the payload under the original key `t` itself; the Postgres revision
persists it under the NORMALIZED key `normalizeU t`, not under `t` itself
(see the counterexample), yet the round trip still holds because its lookup
normalizes too. -/
theorem persist_roundtrip (upstream : String → UpstreamResp)
    (storePG : List (String × String)) (storeBlob : List (String × List Nat))
    (t : String) (r : UpstreamResp) (ht : t ≠ "")
    (hmissPG : alookup (normalizeU t) storePG = none)
    (hmissBlob : alookup (blobFilename t) storeBlob = none)
    (hup : upstream (pinyinUrl (normalizeU t)) = r)
    (hst : r.status = 200)
    (hct : (match r.contentType with
            | some ct => strIncludes ct "text/html"
            | none => false) = false)
    (hlen : 100 ≤ r.body.length)
    (hb : ∀ b ∈ r.body, b < 256) :
    alookup (normalizeU t) (handlerPG upstream storePG ⟨"POST", some t⟩).store =
      some (b64encode r.body) ∧
    alookup (blobFilename t) (handlerBlob upstream storeBlob ⟨"POST", some t⟩).store =
      some r.body ∧
    handlerPG upstream (handlerPG upstream storePG ⟨"POST", some t⟩).store
        ⟨"POST", some t⟩ =
      ⟨⟨200, none, some (b64encode r.body)⟩,
       (handlerPG upstream storePG ⟨"POST", some t⟩).store, ⟨0, 1, 0⟩⟩ ∧
    handlerBlob upstream (handlerBlob upstream storeBlob ⟨"POST", some t⟩).store
        ⟨"POST", some t⟩ =
      ⟨⟨200, none, some (b64encode r.body)⟩,
       (handlerBlob upstream storeBlob ⟨"POST", some t⟩).store, ⟨0, 1, 0⟩⟩ := by
  rw [handlerPG_success upstream storePG t r ht hmissPG hup hst hct hlen,
      handlerBlob_success upstream storeBlob t r ht hmissBlob hup
        (by simp [UpstreamResp.respOk, hst]) hct hlen]
  have hbytes : bufferFromBase64 (b64encode r.body) = r.body := by
    unfold bufferFromBase64
    rw [atobBytes_encode r.body hb]
    rfl
  have hpg : alookup (normalizeU t)
      (insertIfAbsent storePG (normalizeU t) (b64encode r.body)) =
      some (b64encode r.body) :=
    alookup_insertIfAbsent_self storePG (normalizeU t) (b64encode r.body) hmissPG
  have hbl : alookup (blobFilename t) (saveToCache storeBlob t (b64encode r.body)) =
      some r.body := by
    unfold saveToCache
    rw [alookup_putBlob_self storeBlob (blobFilename t) _ hmissBlob, hbytes]
  refine ⟨hpg, hbl, ?_, ?_⟩
  · exact handlerPG_hit upstream _ t _ ht hpg
  · exact handlerBlob_hit upstream _ t r.body ht hbl

/-- Witness for C3's amended round trip, at `t = "ma"`, a 150-byte body. -/
theorem persist_roundtrip_witness :
    (("ma" : String) ≠ "" ∧ (∀ b ∈ List.replicate 150 7, b < 256)) ∧
    (alookup (normalizeU "ma")
      (handlerPG (fun _ => ⟨200, some "audio/mpeg", List.replicate 150 7⟩)
        [] ⟨"POST", some "ma"⟩).store = some (b64encode (List.replicate 150 7)) ∧
    alookup (blobFilename "ma")
      (handlerBlob (fun _ => ⟨200, some "audio/mpeg", List.replicate 150 7⟩)
        [] ⟨"POST", some "ma"⟩).store = some (List.replicate 150 7) ∧
    handlerPG (fun _ => ⟨200, some "audio/mpeg", List.replicate 150 7⟩)
        (handlerPG (fun _ => ⟨200, some "audio/mpeg", List.replicate 150 7⟩)
          [] ⟨"POST", some "ma"⟩).store ⟨"POST", some "ma"⟩ =
      ⟨⟨200, none, some (b64encode (List.replicate 150 7))⟩,
       (handlerPG (fun _ => ⟨200, some "audio/mpeg", List.replicate 150 7⟩)
         [] ⟨"POST", some "ma"⟩).store, ⟨0, 1, 0⟩⟩ ∧
    handlerBlob (fun _ => ⟨200, some "audio/mpeg", List.replicate 150 7⟩)
        (handlerBlob (fun _ => ⟨200, some "audio/mpeg", List.replicate 150 7⟩)
          [] ⟨"POST", some "ma"⟩).store ⟨"POST", some "ma"⟩ =
      ⟨⟨200, none, some (b64encode (List.replicate 150 7))⟩,
       (handlerBlob (fun _ => ⟨200, some "audio/mpeg", List.replicate 150 7⟩)
         [] ⟨"POST", some "ma"⟩).store, ⟨0, 1, 0⟩⟩) :=
  ⟨⟨by decide, by decide⟩,
   persist_roundtrip (fun _ => ⟨200, some "audio/mpeg", List.replicate 150 7⟩)
     [] [] "ma" ⟨200, some "audio/mpeg", List.replicate 150 7⟩
     (by decide) rfl rfl rfl rfl rfl (by decide) (by decide)⟩

/-- C3 counterexample: the Postgres revision does NOT persist under the
original key itself — after a successful request for `"lü"` the payload
sits under the normalized key `"lv"` and no entry is keyed `"lü"`. -/
theorem persist_original_counterexample :
    alookup "lv"
      (handlerPG (fun _ => ⟨200, some "audio/mpeg", List.replicate 150 7⟩)
        [] ⟨"POST", some "lü"⟩).store =
      some (b64encode (List.replicate 150 7)) ∧
    alookup "lü"
      (handlerPG (fun _ => ⟨200, some "audio/mpeg", List.replicate 150 7⟩)
        [] ⟨"POST", some "lü"⟩).store = none := by
  constructor <;> rfl

/-- C2 (amended): in the Postgres revision — which normalizes `ü` to `v`
before both the cache lookup and the persist — two distinct raw spellings
with the same canonical form share a single cache entry: after the first
successful fetch of `t1`, a request with the other spelling `t2` is a cache
hit returning the same payload, with no upstream call and no new cache
entry (the store is unchanged). In the Blob revision the cache is keyed by
the original spelling, so the other spelling misses the cache, issues a
second upstream fetch, and creates a second entry (see the
counterexample). -/
theorem normalization_consistency (upstream : String → UpstreamResp)
    (storePG : List (String × String)) (t1 t2 : String) (r : UpstreamResp)
    (ht1 : t1 ≠ "") (ht2 : t2 ≠ "")
    (hnorm : normalizeU t1 = normalizeU t2)
    (hmiss : alookup (normalizeU t1) storePG = none)
    (hup : upstream (pinyinUrl (normalizeU t1)) = r)
    (hst : r.status = 200)
    (hct : (match r.contentType with
            | some ct => strIncludes ct "text/html"
            | none => false) = false)
    (hlen : 100 ≤ r.body.length) :
    handlerPG upstream (handlerPG upstream storePG ⟨"POST", some t1⟩).store
        ⟨"POST", some t2⟩ =
      ⟨⟨200, none, some (b64encode r.body)⟩,
       (handlerPG upstream storePG ⟨"POST", some t1⟩).store, ⟨0, 1, 0⟩⟩ := by
  rw [handlerPG_success upstream storePG t1 r ht1 hmiss hup hst hct hlen]
  apply handlerPG_hit upstream _ t2 _ ht2
  rw [← hnorm]
  exact alookup_insertIfAbsent_self storePG (normalizeU t1) (b64encode r.body) hmiss

/-- Witness for C2's amended claim at the spellings `"lü"` and `"lv"`. -/
theorem normalization_consistency_witness :
    (("lü" : String) ≠ "" ∧ ("lv" : String) ≠ "" ∧
      normalizeU "lü" = normalizeU "lv") ∧
    handlerPG (fun _ => ⟨200, some "audio/mpeg", List.replicate 150 7⟩)
        (handlerPG (fun _ => ⟨200, some "audio/mpeg", List.replicate 150 7⟩)
          [] ⟨"POST", some "lü"⟩).store ⟨"POST", some "lv"⟩ =
      ⟨⟨200, none, some (b64encode (List.replicate 150 7))⟩,
       (handlerPG (fun _ => ⟨200, some "audio/mpeg", List.replicate 150 7⟩)
         [] ⟨"POST", some "lü"⟩).store, ⟨0, 1, 0⟩⟩ :=
  ⟨⟨by decide, by decide, by decide⟩,
   normalization_consistency (fun _ => ⟨200, some "audio/mpeg", List.replicate 150 7⟩)
     [] "lü" "lv" ⟨200, some "audio/mpeg", List.replicate 150 7⟩
     (by decide) (by decide) (by decide) rfl rfl rfl rfl (by decide)⟩

/-- C2 counterexample: in the Blob revision the spellings `"lü"` and `"lv"`
normalize to the same canonical form, yet after a first successful request
for `"lü"`, a request for `"lv"` is NOT served from the cache: it issues
another upstream fetch and the store ends with two entries. -/
theorem normalization_consistency_counterexample :
    normalizeU "lü" = normalizeU "lv" ∧
    (handlerBlob (fun _ => ⟨200, some "audio/mpeg", List.replicate 150 7⟩)
      (handlerBlob (fun _ => ⟨200, some "audio/mpeg", List.replicate 150 7⟩)
        [] ⟨"POST", some "lü"⟩).store ⟨"POST", some "lv"⟩).eff.upstreamCalls = 1 ∧
    (handlerBlob (fun _ => ⟨200, some "audio/mpeg", List.replicate 150 7⟩)
      (handlerBlob (fun _ => ⟨200, some "audio/mpeg", List.replicate 150 7⟩)
        [] ⟨"POST", some "lü"⟩).store ⟨"POST", some "lv"⟩).store.length = 2 := by
  refine ⟨by decide, ?_, ?_⟩ <;> rfl

/-! ## Raw PCM decoding (client revisions `part_001` and `part_002`)

Two revisions of `decodeAudioData` interpret a byte payload as 16-bit
signed little-endian PCM. The `part_001` revision constructs an
`Int16Array` over the whole copied buffer, which throws a `RangeError`
when the byte length is odd; the `part_002` revision pads an odd-length
buffer with one zero byte first. Samples are modelled as exact rationals
(each 16-bit value divided by 32768 is exactly representable in the
JavaScript floats the code uses). -/

/-- Signed 16-bit little-endian value of one byte pair. -/
def int16le (b0 b1 : Nat) : Int :=
  let v := b0 + 256 * b1
  if v < 32768 then (v : Int) else (v : Int) - 65536

/-- The `Int16Array` view: consecutive little-endian byte pairs (an odd
trailing byte is outside the view; the callers below ensure evenness). -/
def toInt16Samples : List Nat → List Int
  | b0 :: b1 :: rest => int16le b0 b1 :: toInt16Samples rest
  | _ => []

/-- Revision `part_001` (lines 32-51) of `decodeAudioData`: build an
`Int16Array` over the whole copied buffer — this throws a `RangeError` when
the byte length is odd, modelled as `none` — then de-interleave per channel
and scale each sample by `1/32768`. -/
def decodeAudioDataV1 (data : List Nat) (numChannels : Nat) :
    Option (List (List ℚ)) :=
  if data.length % 2 ≠ 0 then none
  else
    let dataInt16 := toInt16Samples data
    let frameCount := dataInt16.length / numChannels
    some ((List.range numChannels).map (fun channel =>
      (List.range frameCount).map (fun i =>
        ((dataInt16.getD (i * numChannels + channel) 0 : ℚ) / 32768))))

/-- Revision `part_002` (lines 57-94) of `decodeAudioData`: if the byte
length is odd, pad with one zero byte (logging a warning) before the
`Int16Array` view, then de-interleave per channel and scale each sample by
`1/32768`. Total — it never throws. -/
def decodeAudioDataV2 (data : List Nat) (numChannels : Nat) : List (List ℚ) :=
  let bufferToDecode := if data.length % 2 ≠ 0 then data ++ [0] else data
  let dataInt16 := toInt16Samples bufferToDecode
  let frameCount := dataInt16.length / numChannels
  (List.range numChannels).map (fun channel =>
    (List.range frameCount).map (fun i =>
      ((dataInt16.getD (i * numChannels + channel) 0 : ℚ) / 32768)))

theorem toInt16Samples_length (l : List Nat) :
    (toInt16Samples l).length = l.length / 2 := by
  induction l using toInt16Samples.induct with
  | case1 b0 b1 rest ih =>
    simp only [toInt16Samples, List.length_cons, ih]
    omega
  | case2 x hx =>
    cases x with
    | nil => simp [toInt16Samples]
    | cons a as =>
      cases as with
      | nil => simp [toInt16Samples]
      | cons b bs => exact absurd rfl (hx a b bs)

theorem int16le_bounds (b0 b1 : Nat) (h0 : b0 < 256) (h1 : b1 < 256) :
    -32768 ≤ int16le b0 b1 ∧ int16le b0 b1 ≤ 32767 := by
  unfold int16le
  by_cases h : b0 + 256 * b1 < 32768 <;> simp [h] <;> omega

theorem toInt16Samples_bounds (l : List Nat) (hb : ∀ b ∈ l, b < 256) :
    ∀ v ∈ toInt16Samples l, -32768 ≤ v ∧ v ≤ 32767 := by
  induction l using toInt16Samples.induct with
  | case1 b0 b1 rest ih =>
    intro v hv
    rcases List.mem_cons.mp hv with rfl | hv'
    · exact int16le_bounds b0 b1 (hb _ (by simp)) (hb _ (by simp))
    · exact ih (fun b hb' => hb b (by simp [hb'])) v hv'
  | case2 x hx =>
    intro v hv
    cases x with
    | nil => cases hv
    | cons a as =>
      cases as with
      | nil => cases hv
      | cons b bs => exact absurd rfl (hx a b bs)

theorem range_map_getD {β : Type} (g : Int → β) (l : List Int) :
    (List.range l.length).map (fun i => g (l.getD i 0)) = l.map g := by
  induction l with
  | nil => rfl
  | cons a l ih =>
    rw [List.length_cons, List.range_succ_eq_map, List.map_cons, List.map_map]
    exact congrArg₂ List.cons rfl ih

/-- C8 (amended): the padding revision (`part_002`) of the client decode
never throws on a raw PCM payload of odd byte length: it decodes exactly
the input padded with one zero byte, producing `(n+1)/2` mono samples, each
equal to the 16-bit signed little-endian integer value divided by 32768 and
lying within -1.0..1.0. The earlier `part_001` revision lacks the padding
and throws on odd input (see the counterexample). -/
theorem decodeAudioData_odd_pads (data : List Nat)
    (hodd : data.length % 2 = 1) (hb : ∀ b ∈ data, b < 256) :
    decodeAudioDataV2 data 1 =
      [(toInt16Samples (data ++ [0])).map (fun v : Int => (v : ℚ) / 32768)] ∧
    ∀ ch ∈ decodeAudioDataV2 data 1,
      ch.length = (data.length + 1) / 2 ∧
      ∀ q ∈ ch, ∃ v : Int, v ∈ toInt16Samples (data ++ [0]) ∧
        q = (v : ℚ) / 32768 ∧ -1 ≤ q ∧ q ≤ 1 := by
  have hifodd : (if data.length % 2 ≠ 0 then data ++ [0] else data) = data ++ [0] := by
    rw [if_pos]
    omega
  have heq : decodeAudioDataV2 data 1 =
      [(toInt16Samples (data ++ [0])).map (fun v : Int => (v : ℚ) / 32768)] := by
    unfold decodeAudioDataV2
    rw [hifodd]
    have hr1 : List.range 1 = [0] := rfl
    simp only [Nat.div_one, hr1, List.map_cons, List.map_nil, Nat.mul_one]
    refine congrArg₂ List.cons ?_ rfl
    have := range_map_getD (fun v : Int => (v : ℚ) / 32768) (toInt16Samples (data ++ [0]))
    simpa using this
  refine ⟨heq, ?_⟩
  intro ch hch
  rw [heq] at hch
  rcases List.mem_cons.mp hch with rfl | hch'
  · constructor
    · rw [List.length_map, toInt16Samples_length]
      simp
    · intro q hq
      rcases List.mem_map.mp hq with ⟨v, hv, rfl⟩
      have hb' : ∀ b ∈ data ++ [0], b < 256 := by
        intro b hb''
        rcases List.mem_append.mp hb'' with h1 | h1
        · exact hb b h1
        · simp at h1
          omega
      rcases toInt16Samples_bounds (data ++ [0]) hb' v hv with ⟨hv1, hv2⟩
      refine ⟨v, hv, rfl, ?_, ?_⟩
      · rw [le_div_iff (by norm_num : (0:ℚ) < 32768)]
        have hcast : (-32768 : ℚ) ≤ (v : ℚ) := by exact_mod_cast hv1
        linarith
      · rw [div_le_iff (by norm_num : (0:ℚ) < 32768)]
        have hcast : (v : ℚ) ≤ 32767 := by exact_mod_cast hv2
        linarith
  · cases hch'

/-- Witness for C8's amended claim at a 2501-byte payload. -/
theorem decodeAudioData_odd_pads_witness :
    ((List.replicate 2501 3).length % 2 = 1 ∧
      ∀ b ∈ List.replicate 2501 3, b < 256) ∧
    (decodeAudioDataV2 (List.replicate 2501 3) 1 =
      [(toInt16Samples (List.replicate 2501 3 ++ [0])).map
        (fun v : Int => (v : ℚ) / 32768)] ∧
    ∀ ch ∈ decodeAudioDataV2 (List.replicate 2501 3) 1,
      ch.length = ((List.replicate 2501 3).length + 1) / 2 ∧
      ∀ q ∈ ch, ∃ v : Int, v ∈ toInt16Samples (List.replicate 2501 3 ++ [0]) ∧
        q = (v : ℚ) / 32768 ∧ -1 ≤ q ∧ q ≤ 1) :=
  ⟨⟨by rw [List.length_replicate], fun b hb => by
      rw [List.eq_of_mem_replicate hb]; decide⟩,
   decodeAudioData_odd_pads (List.replicate 2501 3)
     (by rw [List.length_replicate])
     (fun b hb => by rw [List.eq_of_mem_replicate hb]; decide)⟩

/-- C8 counterexample: the `part_001` revision of `decodeAudioData` lacks
the padding step: on a 2501-byte payload the `Int16Array` construction over
an odd-length buffer throws (modelled as `none`), so the claim's
`does not throw` fails for that revision. -/
theorem decodeAudioData_v1_odd_throws :
    decodeAudioDataV1 (List.replicate 2501 0) 1 = none := by
  simp [decodeAudioDataV1]

/-- C10: decoding with the client's `decodeBase64` the base64 encoding the
server produced for any byte sequence returns exactly those bytes; and
since the client first strips every `\s` character, the round trip holds
for every string whose whitespace-stripped form equals the encoding — in
particular under arbitrary inserted ASCII whitespace. -/
theorem decodeBase64_server_roundtrip (bs : List Nat) (s : String)
    (hb : ∀ b ∈ bs, b < 256) (hs : stripJsWs s = b64encode bs) :
    decodeBase64 s = some bs := by
  unfold decodeBase64
  rw [hs]
  exact atobBytes_encode bs hb

/-- Witness for C10: the bytes `[1, 255, 0]`, whose encoding is `Af8A`,
decoded from a string with interleaved spaces and a newline. -/
theorem decodeBase64_server_roundtrip_witness :
    ((∀ b ∈ [1, 255, 0], b < 256) ∧
      stripJsWs "Af 8\nA" = b64encode [1, 255, 0]) ∧
    decodeBase64 "Af 8\nA" = some [1, 255, 0] :=
  ⟨⟨by decide, by decide⟩,
   decodeBase64_server_roundtrip [1, 255, 0] "Af 8\nA" (by decide) (by decide)⟩

end CandyPinyin
